import Mathlib

/-!
Shallow embedding of the Monte Carlo portfolio simulation repository
(engine/monte_carlo.py, engine/metrics.py, engine/optimizer.py,
comparator/portfolio_audit.py) over real-number semantics.

Random draws (`np.random.random`) are modelled by an explicit random
source `rand : ℕ → ℕ → ℝ`, where `rand i j` is the j-th component of the
i-th drawn vector; the contract of `np.random.random` (values in [0,1))
appears as hypotheses where a claim needs it.

Operations that raise in numpy/pandas on empty input (`np.argmax` /
`np.argmin` of an empty array) are modelled as `Option`-valued, with
`none` standing for the raised exception; `run_audit` accordingly
returns `none` for a run that raises, and `some (result?, error?)`
for a run that returns the Python pair.
-/

namespace MCAudit

/-- Dot product of two lists, `np.dot` on equal-length vectors. -/
def dot (a b : List ℝ) : ℝ := (List.zipWith (fun x y => x * y) a b).sum

/-- Matrix-vector product, row-major matrix as list of rows. -/
def matVec (m : List (List ℝ)) (v : List ℝ) : List ℝ :=
  m.map (fun row => dot row v)

/-- Quadratic form `vᵀ M v`, as in `np.dot(weights.T, np.dot(cov_matrix, weights))`. -/
def quadForm (m : List (List ℝ)) (v : List ℝ) : ℝ := dot v (matVec m v)

/-- `weights /= np.sum(weights)`: divide every component by the sum. -/
noncomputable def normalize (v : List ℝ) : List ℝ := v.map (fun x => x / v.sum)

/-- The i-th raw vector of `num_assets` draws produced by the random source,
modelling `np.random.random(num_assets)` at loop iteration i. -/
def drawVec (rand : ℕ → ℕ → ℝ) (num_assets i : ℕ) : List ℝ :=
  (List.range num_assets).map (rand i)

/-- The `results` dictionary returned by `run_monte_carlo`:
four index-aligned arrays. -/
structure SimResults where
  returns : List ℝ
  volatility : List ℝ
  sharpe : List ℝ
  weights : List (List ℝ)

/-- engine/monte_carlo.py, `run_monte_carlo`: for each of `num_portfolios`
iterations draw a raw vector, normalize it by its sum, and append the
portfolio return, volatility, Sharpe ratio and weights to the four arrays. -/
noncomputable def run_monte_carlo (expected_returns : List ℝ) (cov_matrix : List (List ℝ))
    (num_portfolios : ℕ) (risk_free_rate : ℝ) (rand : ℕ → ℕ → ℝ) : SimResults :=
  let num_assets := expected_returns.length
  let w := fun i => normalize (drawVec rand num_assets i)
  { returns := (List.range num_portfolios).map (fun i => dot (w i) expected_returns)
    volatility := (List.range num_portfolios).map
      (fun i => Real.sqrt (quadForm cov_matrix (w i)))
    sharpe := (List.range num_portfolios).map
      (fun i => (dot (w i) expected_returns - risk_free_rate) /
        Real.sqrt (quadForm cov_matrix (w i)))
    weights := (List.range num_portfolios).map (fun i => w i) }

/-- Mean of a column, `daily_returns.mean()` for one column. -/
noncomputable def colMean (c : List ℝ) : ℝ := c.sum / c.length

/-- Sample covariance of two equal-length columns, pandas `.cov()` entry
(normalized by n - 1). -/
noncomputable def sampleCov (a b : List ℝ) : ℝ :=
  (List.zipWith (fun x y => (x - colMean a) * (y - colMean b)) a b).sum /
    ((a.length : ℝ) - 1)

/-- engine/metrics.py, `compute_annual_metrics`: per-column daily mean and
pairwise daily covariance, each scaled by TRADING_DAYS = 252. The table is
given as its list of columns in universe order. -/
noncomputable def compute_annual_metrics (daily_returns : List (List ℝ)) :
    List ℝ × List (List ℝ) :=
  (daily_returns.map (fun c => colMean c * 252),
   daily_returns.map (fun a => daily_returns.map (fun b => sampleCov a b * 252)))

/-- Helper for `np.argmax`: first argmax of the list `x :: rest`, returned as
(index, value). Strict comparison keeps the earliest index on ties, matching
numpy, which returns the first occurrence of the maximum. -/
noncomputable def argmaxAux : ℝ → List ℝ → ℕ × ℝ
  | x, [] => (0, x)
  | x, y :: ys =>
    let p := argmaxAux y ys
    if p.2 ≤ x then (0, x) else (p.1 + 1, p.2)

/-- `np.argmax`: index of the first occurrence of the maximum; `none` models
the `ValueError` numpy raises on an empty array. -/
noncomputable def argmaxIdx : List ℝ → Option ℕ
  | [] => none
  | x :: xs => some (argmaxAux x xs).1

/-- Helper for `np.argmin`: first argmin of `x :: rest` as (index, value). -/
noncomputable def argminAux : ℝ → List ℝ → ℕ × ℝ
  | x, [] => (0, x)
  | x, y :: ys =>
    let p := argminAux y ys
    if x ≤ p.2 then (0, x) else (p.1 + 1, p.2)

/-- `np.argmin`: index of the first occurrence of the minimum; `none` models
the `ValueError` numpy raises on an empty array. -/
noncomputable def argminIdx : List ℝ → Option ℕ
  | [] => none
  | x :: xs => some (argminAux x xs).1

/-- comparator/portfolio_audit.py lines 38-45: the risk-preference dispatch.
"High" takes `np.argmax(sharpe)`, "Low" takes `np.argmin(volatility)`, any
other label falls through to `np.argmax(sharpe)`. -/
noncomputable def selectIdx (risk_preference : String) (sim : SimResults) : Option ℕ :=
  if risk_preference = "High" then argmaxIdx sim.sharpe
  else if risk_preference = "Low" then argminIdx sim.volatility
  else argmaxIdx sim.sharpe

/-- A metrics record for one portfolio, as assembled by the optimizer and the
audit (expected return, volatility, Sharpe ratio, weights). -/
structure PortStats where
  ret : ℝ
  volatility : ℝ
  sharpe : ℝ
  weights : List ℝ

/-- engine/optimizer.py, `find_max_sharpe`: index the four result arrays at
`argmax(sharpe)`; `none` models the exception raised on an empty population. -/
noncomputable def find_max_sharpe (results : SimResults) : Option PortStats :=
  (argmaxIdx results.sharpe).map (fun idx =>
    { ret := results.returns.getD idx 0
      volatility := results.volatility.getD idx 0
      sharpe := results.sharpe.getD idx 0
      weights := results.weights.getD idx [] })

/-- comparator/portfolio_audit.py line 11: `[t for t in user_tickers if t in
historical_data.columns]` — identifiers of the user table that occur among the
historical columns, in user order. -/
def validTickers (user_tickers : List String) (histCols : List String) : List String :=
  user_tickers.filter (fun t => decide (t ∈ histCols))

/-- Weight a user table assigns to a ticker: the `Weight` cell of the (first)
row whose `Ticker` equals `t`, or 0 when the ticker is absent (the `fillna(0)`
of the reindex step). -/
def lookupWeight (user_df : List (String × ℝ)) (t : String) : ℝ :=
  match user_df.find? (fun p => p.1 == t) with
  | some p => p.2
  | none => 0

/-- comparator/portfolio_audit.py lines 22-26: restrict the user table to
valid tickers, divide each weight by the restricted sum, and align the result
to `valid_tickers` order (absent entries become 0). -/
noncomputable def reconciledWeights (user_df : List (String × ℝ))
    (histCols : List String) : List ℝ :=
  let valid := validTickers (user_df.map Prod.fst) histCols
  let s := ((user_df.filter (fun p => decide (p.1 ∈ valid))).map Prod.snd).sum
  valid.map (fun t => lookupWeight user_df t / s)

/-- Column of the historical table for a given ticker name. -/
def lookupCol (hist : List (String × List ℝ)) (t : String) : List ℝ :=
  match hist.find? (fun p => p.1 == t) with
  | some p => p.2
  | none => []

/-- The dictionary `run_audit` returns on success. -/
structure AuditResult where
  user : PortStats
  optimal : PortStats
  tickers : List String
  num_simulations : ℕ
  simulation_data : SimResults

/-- The error message of the insufficient-universe branch of `run_audit`. -/
def insufficientMsg : String :=
  "Not enough valid tickers found in history database. Need at least 2 matching stocks."

/-- comparator/portfolio_audit.py, `run_audit`. The historical table is a list
of (column name, column) pairs; the user table a list of (Ticker, Weight)
rows. Returns `some (result?, error?)` for the Python pair, and `none` when
the selection step raises on an empty simulation population. -/
noncomputable def run_audit (user_df : List (String × ℝ)) (hist : List (String × List ℝ))
    (risk_preference : String) (risk_free_rate : ℝ) (num_simulations : ℕ)
    (rand : ℕ → ℕ → ℝ) : Option (Option AuditResult × Option String) :=
  let histCols := hist.map Prod.fst
  let valid := validTickers (user_df.map Prod.fst) histCols
  if valid.length < 2 then some (none, some insufficientMsg)
  else
    let subset := valid.map (fun t => lookupCol hist t)
    let mean_ret := (compute_annual_metrics subset).1
    let cov_mat := (compute_annual_metrics subset).2
    let user_weights := reconciledWeights user_df histCols
    let user_ret := dot user_weights mean_ret
    let user_vol := Real.sqrt (quadForm cov_mat user_weights)
    let user_sharpe := (user_ret - risk_free_rate) / user_vol
    let sim := run_monte_carlo mean_ret cov_mat num_simulations risk_free_rate rand
    (selectIdx risk_preference sim).map (fun best_idx =>
      (some
        { user := { ret := user_ret, volatility := user_vol,
                    sharpe := user_sharpe, weights := user_weights }
          optimal := { ret := sim.returns.getD best_idx 0
                       volatility := sim.volatility.getD best_idx 0
                       sharpe := sim.sharpe.getD best_idx 0
                       weights := sim.weights.getD best_idx [] }
          tickers := valid
          num_simulations := sim.returns.length
          simulation_data := sim }, none))

/-- `j` is the index of the first occurrence of the maximum of `l`. -/
def IsFirstMaxIdx (l : List ℝ) (j : ℕ) : Prop :=
  ∃ m, l[j]? = some m ∧ (∀ x ∈ l, x ≤ m) ∧ ∀ k < j, ∀ x, l[k]? = some x → x < m

/-- `j` is the index of the first occurrence of the minimum of `l`. -/
def IsFirstMinIdx (l : List ℝ) (j : ℕ) : Prop :=
  ∃ m, l[j]? = some m ∧ (∀ x ∈ l, m ≤ x) ∧ ∀ k < j, ∀ x, l[k]? = some x → m < x

theorem length_run_monte_carlo (er : List ℝ) (cov : List (List ℝ)) (N : ℕ)
    (rf : ℝ) (rand : ℕ → ℕ → ℝ) :
    (run_monte_carlo er cov N rf rand).returns.length = N ∧
    (run_monte_carlo er cov N rf rand).volatility.length = N ∧
    (run_monte_carlo er cov N rf rand).sharpe.length = N ∧
    (run_monte_carlo er cov N rf rand).weights.length = N := by
  simp [run_monte_carlo]

/-- Claim C1: `run_monte_carlo` returns four index-aligned arrays of exactly
`num_portfolios` entries; at every index `i` the weight vector is the drawn
vector divided by its sum, the return is `weights · expected_returns`, the
volatility is `sqrt(weightsᵀ · cov · weights)`, and whenever the volatility is
nonzero the Sharpe ratio is `(return - risk_free_rate) / volatility`. -/
theorem claim_C1 (er : List ℝ) (cov : List (List ℝ)) (N : ℕ) (rf : ℝ)
    (rand : ℕ → ℕ → ℝ) :
    (run_monte_carlo er cov N rf rand).returns.length = N ∧
    (run_monte_carlo er cov N rf rand).volatility.length = N ∧
    (run_monte_carlo er cov N rf rand).sharpe.length = N ∧
    (run_monte_carlo er cov N rf rand).weights.length = N ∧
    ∀ i, i < N →
      (run_monte_carlo er cov N rf rand).weights[i]? =
        some (normalize (drawVec rand er.length i)) ∧
      (run_monte_carlo er cov N rf rand).returns[i]? =
        some (dot (normalize (drawVec rand er.length i)) er) ∧
      (run_monte_carlo er cov N rf rand).volatility[i]? =
        some (Real.sqrt (quadForm cov (normalize (drawVec rand er.length i)))) ∧
      (Real.sqrt (quadForm cov (normalize (drawVec rand er.length i))) ≠ 0 →
        (run_monte_carlo er cov N rf rand).sharpe[i]? =
          some ((dot (normalize (drawVec rand er.length i)) er - rf) /
            Real.sqrt (quadForm cov (normalize (drawVec rand er.length i))))) := by
  refine ⟨by simp [run_monte_carlo], by simp [run_monte_carlo],
    by simp [run_monte_carlo], by simp [run_monte_carlo], ?_⟩
  intro i hi
  refine ⟨?_, ?_, ?_, fun _ => ?_⟩ <;>
    simp [run_monte_carlo, List.getElem?_map, List.getElem?_range, hi]

/-- Witness for C1 at a concrete input: two assets, expected returns [2, 4],
identity covariance, one sample, constant draws. -/
theorem claim_C1_witness :
    (run_monte_carlo [2, 4] [[1, 0], [0, 1]] 1 0 (fun _ _ => 1)).sharpe[0]? =
      some ((dot (normalize (drawVec (fun _ _ => 1) 2 0)) [2, 4] - 0) /
        Real.sqrt (quadForm [[1, 0], [0, 1]] (normalize (drawVec (fun _ _ => 1) 2 0)))) := by
  have h := claim_C1 [2, 4] [[1, 0], [0, 1]] 1 0 (fun _ _ => 1)
  refine (h.2.2.2.2 0 (by norm_num)).2.2.2 ?_
  have hlen : ([(2 : ℝ), 4] : List ℝ).length = 2 := rfl
  rw [hlen]
  have hq : quadForm [[1, 0], [0, 1]] (normalize (drawVec (fun _ _ => 1) 2 0)) = 1 / 2 := by
    norm_num [quadForm, dot, matVec, normalize, drawVec, List.range_succ]
  rw [hq]
  positivity

/-- Claim C9: with the random source fixed (two extensionally equal sources)
and identical inputs, two runs of `run_monte_carlo` produce identical
populations. -/
theorem claim_C9 (er : List ℝ) (cov : List (List ℝ)) (N : ℕ) (rf : ℝ)
    (rand1 rand2 : ℕ → ℕ → ℝ) (h : ∀ i j, rand1 i j = rand2 i j) :
    run_monte_carlo er cov N rf rand1 = run_monte_carlo er cov N rf rand2 := by
  have hr : rand1 = rand2 := funext fun i => funext fun j => h i j
  rw [hr]

/-- Witness for C9: two syntactically different but extensionally equal
random sources give identical populations. -/
theorem claim_C9_witness :
    run_monte_carlo [1] [[1]] 2 0 (fun i j => (i + j : ℝ)) =
      run_monte_carlo [1] [[1]] 2 0 (fun i j => (j + i : ℝ)) :=
  claim_C9 [1] [[1]] 2 0 _ _ (fun i j => add_comm (i : ℝ) (j : ℝ))

/-- Claim C4: when fewer than 2 user tickers occur among the historical
columns, `run_audit` returns no result together with the descriptive error
message, uniformly in the risk preference, risk-free rate, simulation count
and random source — so no simulation work affects the outcome. -/
theorem claim_C4 (user_df : List (String × ℝ)) (hist : List (String × List ℝ))
    (h : (validTickers (user_df.map Prod.fst) (hist.map Prod.fst)).length < 2)
    (pref : String) (rf : ℝ) (N : ℕ) (rand : ℕ → ℕ → ℝ) :
    run_audit user_df hist pref rf N rand = some (none, some insufficientMsg) := by
  simp only [run_audit]
  rw [if_pos h]

/-- Witness for C4: a single-ticker portfolio whose ticker is absent from the
historical columns. -/
theorem claim_C4_witness :
    run_audit [("A", 1)] [("B", [1, 2])] "High" 0 5 (fun _ _ => 1) =
      some (none, some insufficientMsg) :=
  claim_C4 [("A", 1)] [("B", [1, 2])] (by simp [validTickers]) "High" 0 5 (fun _ _ => 1)

theorem argmaxAux_spec (x : ℝ) (xs : List ℝ) :
    (x :: xs)[(argmaxAux x xs).1]? = some (argmaxAux x xs).2 ∧
    (∀ y ∈ x :: xs, y ≤ (argmaxAux x xs).2) ∧
    ∀ k < (argmaxAux x xs).1, ∀ y, (x :: xs)[k]? = some y → y < (argmaxAux x xs).2 := by
  induction xs generalizing x with
  | nil =>
    refine ⟨rfl, ?_, ?_⟩
    · intro y hy
      simp only [argmaxAux]
      simp only [List.mem_singleton] at hy
      exact le_of_eq hy
    · intro k hk
      simp [argmaxAux] at hk
  | cons y ys ih =>
    obtain ⟨ih1, ih2, ih3⟩ := ih y
    by_cases h : (argmaxAux y ys).2 ≤ x
    · simp only [argmaxAux, if_pos h]
      refine ⟨rfl, ?_, ?_⟩
      · intro z hz
        rcases List.mem_cons.mp hz with hz | hz
        · exact le_of_eq hz
        · exact le_trans (ih2 z hz) h
      · intro k hk
        exact absurd hk (Nat.not_lt_zero k)
    · simp only [argmaxAux, if_neg h]
      push_neg at h
      refine ⟨?_, ?_, ?_⟩
      · simpa using ih1
      · intro z hz
        rcases List.mem_cons.mp hz with hz | hz
        · exact le_of_lt (hz ▸ h)
        · exact ih2 z hz
      · intro k hk z hkz
        cases k with
        | zero =>
          simp only [List.getElem?_cons_zero, Option.some_inj] at hkz
          exact hkz ▸ h
        | succ k =>
          rw [List.getElem?_cons_succ] at hkz
          exact ih3 k (Nat.succ_lt_succ_iff.mp hk) z hkz

theorem argminAux_spec (x : ℝ) (xs : List ℝ) :
    (x :: xs)[(argminAux x xs).1]? = some (argminAux x xs).2 ∧
    (∀ y ∈ x :: xs, (argminAux x xs).2 ≤ y) ∧
    ∀ k < (argminAux x xs).1, ∀ y, (x :: xs)[k]? = some y → (argminAux x xs).2 < y := by
  induction xs generalizing x with
  | nil =>
    refine ⟨rfl, ?_, ?_⟩
    · intro y hy
      simp only [argminAux]
      simp only [List.mem_singleton] at hy
      exact le_of_eq hy.symm
    · intro k hk
      simp [argminAux] at hk
  | cons y ys ih =>
    obtain ⟨ih1, ih2, ih3⟩ := ih y
    by_cases h : x ≤ (argminAux y ys).2
    · simp only [argminAux, if_pos h]
      refine ⟨rfl, ?_, ?_⟩
      · intro z hz
        rcases List.mem_cons.mp hz with hz | hz
        · exact le_of_eq hz.symm
        · exact le_trans h (ih2 z hz)
      · intro k hk
        exact absurd hk (Nat.not_lt_zero k)
    · simp only [argminAux, if_neg h]
      push_neg at h
      refine ⟨?_, ?_, ?_⟩
      · simpa using ih1
      · intro z hz
        rcases List.mem_cons.mp hz with hz | hz
        · exact le_of_lt (hz ▸ h)
        · exact ih2 z hz
      · intro k hk z hkz
        cases k with
        | zero =>
          simp only [List.getElem?_cons_zero, Option.some_inj] at hkz
          exact hkz ▸ h
        | succ k =>
          rw [List.getElem?_cons_succ] at hkz
          exact ih3 k (Nat.succ_lt_succ_iff.mp hk) z hkz

theorem argmaxIdx_spec (l : List ℝ) (h : l ≠ []) :
    ∃ j, argmaxIdx l = some j ∧ IsFirstMaxIdx l j := by
  cases l with
  | nil => exact absurd rfl h
  | cons x xs =>
    obtain ⟨h1, h2, h3⟩ := argmaxAux_spec x xs
    exact ⟨(argmaxAux x xs).1, rfl, (argmaxAux x xs).2, h1, h2, h3⟩

theorem argminIdx_spec (l : List ℝ) (h : l ≠ []) :
    ∃ j, argminIdx l = some j ∧ IsFirstMinIdx l j := by
  cases l with
  | nil => exact absurd rfl h
  | cons x xs =>
    obtain ⟨h1, h2, h3⟩ := argminAux_spec x xs
    exact ⟨(argminAux x xs).1, rfl, (argminAux x xs).2, h1, h2, h3⟩

/-- Claim C2: on a non-empty population, preference "High" selects the first
index of maximum Sharpe, "Low" selects the first index of minimum volatility,
and any other label (including "Medium") falls through to the first index of
maximum Sharpe; the first-occurrence tie-break makes selection deterministic
given the population. -/
theorem claim_C2 (pref : String) (sim : SimResults) :
    (pref = "High" → sim.sharpe ≠ [] →
      ∃ j, selectIdx pref sim = some j ∧ IsFirstMaxIdx sim.sharpe j) ∧
    (pref = "Low" → sim.volatility ≠ [] →
      ∃ j, selectIdx pref sim = some j ∧ IsFirstMinIdx sim.volatility j) ∧
    (pref ≠ "High" → pref ≠ "Low" → sim.sharpe ≠ [] →
      ∃ j, selectIdx pref sim = some j ∧ IsFirstMaxIdx sim.sharpe j) := by
  refine ⟨?_, ?_, ?_⟩
  · intro hp hs
    obtain ⟨j, hj, hspec⟩ := argmaxIdx_spec sim.sharpe hs
    exact ⟨j, by simp [selectIdx, hp, hj], hspec⟩
  · intro hp hv
    obtain ⟨j, hj, hspec⟩ := argminIdx_spec sim.volatility hv
    refine ⟨j, ?_, hspec⟩
    simp only [selectIdx, hp]
    simp [hj]
  · intro hp1 hp2 hs
    obtain ⟨j, hj, hspec⟩ := argmaxIdx_spec sim.sharpe hs
    refine ⟨j, ?_, hspec⟩
    simp only [selectIdx, if_neg hp1, if_neg hp2]
    exact hj

/-- Witness for C2 on a hand-built three-entry population: "Medium" (neither
"High" nor "Low") selects a first index of maximum Sharpe. -/
theorem claim_C2_witness :
    ∃ j, selectIdx "Medium" ⟨[1, 2, 3], [5, 4, 6], [7, 9, 8], [[1], [2], [3]]⟩ = some j ∧
      IsFirstMaxIdx [7, 9, 8] j :=
  (claim_C2 "Medium" ⟨[1, 2, 3], [5, 4, 6], [7, 9, 8], [[1], [2], [3]]⟩).2.2
    (by simp) (by simp) (by simp)

/-- Claim C6: `compute_annual_metrics` returns the per-asset mean periodic
return times 252 and the pairwise periodic sample covariance times 252, both
in the column order of the input table, and is deterministic. -/
theorem claim_C6 (tbl : List (List ℝ)) :
    (compute_annual_metrics tbl).1.length = tbl.length ∧
    (compute_annual_metrics tbl).2.length = tbl.length ∧
    (∀ (j : ℕ) (c : List ℝ), tbl[j]? = some c →
      (compute_annual_metrics tbl).1[j]? = some (colMean c * 252) ∧
      (compute_annual_metrics tbl).2[j]? =
        some (tbl.map (fun b => sampleCov c b * 252))) ∧
    ∀ tbl2, tbl = tbl2 → compute_annual_metrics tbl = compute_annual_metrics tbl2 := by
  refine ⟨by simp [compute_annual_metrics], by simp [compute_annual_metrics], ?_, ?_⟩
  · intro j c hj
    constructor <;> simp [compute_annual_metrics, List.getElem?_map, hj]
  · intro tbl2 h
    rw [h]

/-- Witness for C6 on a concrete two-column, two-row table. -/
theorem claim_C6_witness :
    (compute_annual_metrics [[1, 2], [3, 5]]).1[0]? = some (colMean [1, 2] * 252) ∧
    (compute_annual_metrics [[1, 2], [3, 5]]).2[0]? =
      some ([[1, 2], [3, 5]].map (fun b => sampleCov [1, 2] b * 252)) :=
  (claim_C6 [[1, 2], [3, 5]]).2.2.1 0 [1, 2] rfl

theorem sum_map_div (l : List ℝ) (s : ℝ) :
    (l.map (fun x => x / s)).sum = l.sum / s := by
  induction l with
  | nil => simp
  | cons x xs ih => simp [ih, add_div]

theorem lookupWeight_cons (a : String) (b : ℝ) (rest : List (String × ℝ)) (t : String) :
    lookupWeight ((a, b) :: rest) t = if a = t then b else lookupWeight rest t := by
  by_cases h : a = t
  · subst h
    simp [lookupWeight, List.find?_cons_of_pos]
  · rw [if_neg h]
    have hb : (((a, b) : String × ℝ).1 == t) = false := by
      simpa using h
    simp [lookupWeight, List.find?_cons_of_neg, hb]

theorem validTickers_cons (t : String) (rest hist : List String) :
    validTickers (t :: rest) hist =
      if t ∈ hist then t :: validTickers rest hist else validTickers rest hist := by
  by_cases h : t ∈ hist <;> simp [validTickers, List.filter_cons, h]

theorem mem_validTickers (t : String) (tickers hist : List String) :
    t ∈ validTickers tickers hist ↔ t ∈ tickers ∧ t ∈ hist := by
  simp [validTickers, List.mem_filter]

theorem lookupWeight_nonneg (user : List (String × ℝ)) (hist : List String)
    (hwnn : ∀ p ∈ user, p.1 ∈ hist → 0 ≤ p.2) (t : String) (ht : t ∈ hist) :
    0 ≤ lookupWeight user t := by
  have hdef : lookupWeight user t =
      match user.find? (fun p => p.1 == t) with
      | some p => p.2
      | none => 0 := rfl
  rw [hdef]
  cases hf : user.find? (fun p => p.1 == t) with
  | none => exact le_refl 0
  | some p =>
    have hmem := List.mem_of_find?_eq_some hf
    have hpt : p.1 = t := by simpa using List.find?_some hf
    exact hwnn p hmem (hpt ▸ ht)

theorem sum_lookup_valid (user : List (String × ℝ)) (hist : List String)
    (hnd : (user.map Prod.fst).Nodup) :
    ((validTickers (user.map Prod.fst) hist).map (fun t => lookupWeight user t)).sum =
      ((user.filter (fun p => decide (p.1 ∈ hist))).map Prod.snd).sum := by
  induction user with
  | nil => simp [validTickers]
  | cons q rest ih =>
    obtain ⟨t, w⟩ := q
    simp only [List.map_cons] at hnd
    have hnotmem : t ∉ rest.map Prod.fst := (List.nodup_cons.mp hnd).1
    have hnd' : (rest.map Prod.fst).Nodup := (List.nodup_cons.mp hnd).2
    have hmap : ∀ t' ∈ validTickers (rest.map Prod.fst) hist,
        lookupWeight ((t, w) :: rest) t' = lookupWeight rest t' := by
      intro t' ht'
      have ht'' : t' ∈ rest.map Prod.fst := ((mem_validTickers t' _ hist).mp ht').1
      have hne : t ≠ t' := fun he => hnotmem (he ▸ ht'')
      rw [lookupWeight_cons, if_neg hne]
    by_cases h : t ∈ hist
    · simp only [List.map_cons, validTickers_cons, if_pos h, List.sum_cons,
        List.filter_cons]
      rw [lookupWeight_cons, if_pos rfl]
      rw [List.map_congr_left hmap, ih hnd']
      simp [h]
    · simp only [List.map_cons, validTickers_cons, if_neg h, List.filter_cons]
      rw [List.map_congr_left hmap, ih hnd']
      simp [h]

theorem filter_valid_eq (user : List (String × ℝ)) (hist : List String) :
    user.filter (fun p => decide (p.1 ∈ validTickers (user.map Prod.fst) hist)) =
      user.filter (fun p => decide (p.1 ∈ hist)) := by
  apply List.filter_congr
  intro p hp
  have hp1 : p.1 ∈ user.map Prod.fst := List.mem_map_of_mem Prod.fst hp
  rw [decide_eq_decide, mem_validTickers]
  exact ⟨fun h => h.2, fun h => ⟨hp1, h⟩⟩

theorem reconciledWeights_sum (user : List (String × ℝ)) (hist : List String)
    (hnd : (user.map Prod.fst).Nodup)
    (hs : ((user.filter
      (fun p => decide (p.1 ∈ validTickers (user.map Prod.fst) hist))).map
        Prod.snd).sum ≠ 0) :
    (reconciledWeights user hist).sum = 1 := by
  have hmm : (validTickers (user.map Prod.fst) hist).map
        (fun t => lookupWeight user t /
          ((user.filter (fun p => decide (p.1 ∈ validTickers (user.map Prod.fst)
            hist))).map Prod.snd).sum) =
      ((validTickers (user.map Prod.fst) hist).map (fun t => lookupWeight user t)).map
        (fun x => x /
          ((user.filter (fun p => decide (p.1 ∈ validTickers (user.map Prod.fst)
            hist))).map Prod.snd).sum) := by
    rw [List.map_map]
    rfl
  rw [reconciledWeights, hmm, sum_map_div, sum_lookup_valid user hist hnd,
    filter_valid_eq user hist]
  rw [filter_valid_eq user hist] at hs
  exact div_self hs

theorem validTickers_fixture :
    validTickers (([("A", (1 : ℝ) / 2), ("B", 3 / 10), ("C", 1 / 5)]).map Prod.fst)
      ["B", "C", "D"] = ["B", "C"] := by
  simp [validTickers]

theorem filter_fixture :
    ([("A", (1 : ℝ) / 2), ("B", 3 / 10), ("C", 1 / 5)]).filter
      (fun p => decide (p.1 ∈ (["B", "C"] : List String))) =
      [("B", 3 / 10), ("C", 1 / 5)] := by
  rw [List.filter_cons, List.filter_cons, List.filter_cons]
  rw [if_neg (by decide), if_pos (by decide), if_pos (by decide)]
  rfl

theorem reconciled_fixture :
    reconciledWeights [("A", 1 / 2), ("B", 3 / 10), ("C", 1 / 5)] ["B", "C", "D"] =
      [3 / 5, 2 / 5] := by
  simp only [reconciledWeights, validTickers_fixture]
  rw [filter_fixture]
  have hlB : lookupWeight [("A", (1 : ℝ) / 2), ("B", 3 / 10), ("C", 1 / 5)] "B" = 3 / 10 := by
    rw [lookupWeight_cons, if_neg (by decide), lookupWeight_cons, if_pos rfl]
  have hlC : lookupWeight [("A", (1 : ℝ) / 2), ("B", 3 / 10), ("C", 1 / 5)] "C" = 1 / 5 := by
    rw [lookupWeight_cons, if_neg (by decide), lookupWeight_cons, if_neg (by decide),
      lookupWeight_cons, if_pos rfl]
  simp only [List.map_cons, List.map_nil, List.sum_cons, List.sum_nil, hlB, hlC]
  norm_num

theorem fixture_sum_ne_zero :
    ((([("A", (1 : ℝ) / 2), ("B", 3 / 10), ("C", 1 / 5)]).filter
      (fun p => decide (p.1 ∈ validTickers
        (([("A", (1 : ℝ) / 2), ("B", 3 / 10), ("C", 1 / 5)]).map Prod.fst)
        ["B", "C", "D"]))).map Prod.snd).sum ≠ 0 := by
  simp only [validTickers_fixture]
  rw [filter_fixture]
  norm_num

/-- Claim C3: against a common universe of size ≥ 2, reconciliation drops the
weights of identifiers outside the universe and renormalizes the kept weights
by their sum, producing a dense vector aligned to universe order that sums to
1; in particular {A: 0.5, B: 0.3, C: 0.2} against columns {B, C, D} gives
universe [B, C] and weights [0.6, 0.4]. -/
theorem claim_C3 (user_df : List (String × ℝ)) (hist : List String)
    (hnd : (user_df.map Prod.fst).Nodup)
    (_h2 : 2 ≤ (validTickers (user_df.map Prod.fst) hist).length)
    (hs : ((user_df.filter
      (fun p => decide (p.1 ∈ validTickers (user_df.map Prod.fst) hist))).map
        Prod.snd).sum ≠ 0) :
    (reconciledWeights user_df hist).length =
      (validTickers (user_df.map Prod.fst) hist).length ∧
    (∀ (j : ℕ) (t : String), (validTickers (user_df.map Prod.fst) hist)[j]? = some t →
      (reconciledWeights user_df hist)[j]? = some (lookupWeight user_df t /
        ((user_df.filter
          (fun p => decide (p.1 ∈ validTickers (user_df.map Prod.fst) hist))).map
            Prod.snd).sum)) ∧
    (reconciledWeights user_df hist).sum = 1 ∧
    validTickers ["A", "B", "C"] ["B", "C", "D"] = ["B", "C"] ∧
    reconciledWeights [("A", 1 / 2), ("B", 3 / 10), ("C", 1 / 5)] ["B", "C", "D"] =
      [3 / 5, 2 / 5] := by
  refine ⟨by simp [reconciledWeights], ?_, reconciledWeights_sum user_df hist hnd hs,
    by simp [validTickers], reconciled_fixture⟩
  intro j t hj
  simp [reconciledWeights, List.getElem?_map, hj]

/-- Witness for C3 at the concrete fixture from the spec. -/
theorem claim_C3_witness :
    (reconciledWeights [("A", 1 / 2), ("B", 3 / 10), ("C", 1 / 5)] ["B", "C", "D"]).sum = 1 ∧
    reconciledWeights [("A", 1 / 2), ("B", 3 / 10), ("C", 1 / 5)] ["B", "C", "D"] =
      [3 / 5, 2 / 5] := by
  have h := claim_C3 [("A", 1 / 2), ("B", 3 / 10), ("C", 1 / 5)] ["B", "C", "D"]
    (by simp) (by rw [validTickers_fixture]; norm_num) fixture_sum_ne_zero
  exact ⟨h.2.2.1, h.2.2.2.2⟩

/-- Claim C7: every weight vector the core produces is non-negative and sums
to 1: a simulated vector, provided the raw draws are non-negative (the
`np.random.random` contract) with positive sum, and the reconciled user
vector, provided the overlapping raw weights are non-negative with positive
sum (tickers assumed deduplicated, as the parsing layer guarantees). -/
theorem claim_C7 (er : List ℝ) (cov : List (List ℝ)) (N : ℕ) (rf : ℝ)
    (rand : ℕ → ℕ → ℝ) (i : ℕ) (hi : i < N)
    (hnn : ∀ j, 0 ≤ rand i j) (hpos : 0 < (drawVec rand er.length i).sum)
    (user_df : List (String × ℝ)) (hist : List String)
    (hnd : (user_df.map Prod.fst).Nodup)
    (hwnn : ∀ p ∈ user_df, p.1 ∈ hist → 0 ≤ p.2)
    (hwpos : 0 < ((user_df.filter
      (fun p => decide (p.1 ∈ validTickers (user_df.map Prod.fst) hist))).map
        Prod.snd).sum) :
    ((run_monte_carlo er cov N rf rand).weights[i]? =
        some (normalize (drawVec rand er.length i)) ∧
      (∀ x ∈ normalize (drawVec rand er.length i), 0 ≤ x) ∧
      (normalize (drawVec rand er.length i)).sum = 1) ∧
    ((∀ x ∈ reconciledWeights user_df hist, 0 ≤ x) ∧
      (reconciledWeights user_df hist).sum = 1) := by
  refine ⟨⟨?_, ?_, ?_⟩, ⟨?_, reconciledWeights_sum user_df hist hnd (ne_of_gt hwpos)⟩⟩
  · simp [run_monte_carlo, List.getElem?_map, List.getElem?_range, hi]
  · intro x hx
    obtain ⟨y, hy, rfl⟩ := List.mem_map.mp hx
    obtain ⟨j, hj, rfl⟩ : ∃ a, a < er.length ∧ rand i a = y := by
      simpa [drawVec] using hy
    exact div_nonneg (hnn j) (le_of_lt hpos)
  · rw [normalize, sum_map_div]
    exact div_self (ne_of_gt hpos)
  · intro x hx
    obtain ⟨t, ht, rfl⟩ := List.mem_map.mp hx
    have hth : t ∈ hist := ((mem_validTickers t _ hist).mp ht).2
    exact div_nonneg (lookupWeight_nonneg user_df hist hwnn t hth) (le_of_lt hwpos)

/-- Witness for C7: one sample over two assets with constant draws, and the
user portfolio {A: 0.5, B: 0.5} against historical columns [A, B]. -/
theorem claim_C7_witness :
    ((run_monte_carlo [1, 2] [[1, 0], [0, 1]] 1 0 (fun _ _ => 1)).weights[0]? =
        some (normalize (drawVec (fun _ _ => 1) ([(1 : ℝ), 2]).length 0)) ∧
      (∀ x ∈ normalize (drawVec (fun _ _ => 1) ([(1 : ℝ), 2]).length 0), 0 ≤ x) ∧
      (normalize (drawVec (fun _ _ => 1) ([(1 : ℝ), 2]).length 0)).sum = 1) ∧
    ((∀ x ∈ reconciledWeights [("A", 1 / 2), ("B", 1 / 2)] ["A", "B"], 0 ≤ x) ∧
      (reconciledWeights [("A", 1 / 2), ("B", 1 / 2)] ["A", "B"]).sum = 1) := by
  refine claim_C7 [1, 2] [[1, 0], [0, 1]] 1 0 (fun _ _ => 1) 0 (by norm_num)
    (fun j => by norm_num) ?_ [("A", 1 / 2), ("B", 1 / 2)] ["A", "B"]
    (by simp) ?_ ?_
  · norm_num [drawVec, List.range_succ]
  · intro p hp _
    rcases List.mem_cons.mp hp with rfl | hp
    · norm_num
    · rcases List.mem_cons.mp hp with rfl | hp
      · norm_num
      · simp at hp
  · norm_num [validTickers, List.filter]

theorem selectIdx_exists (pref : String) (sim : SimResults) (hs : sim.sharpe ≠ [])
    (hv : sim.volatility ≠ []) : ∃ j, selectIdx pref sim = some j := by
  unfold selectIdx
  split_ifs
  · exact (argmaxIdx_spec _ hs).imp fun j hj => hj.1
  · exact (argminIdx_spec _ hv).imp fun j hj => hj.1
  · exact (argmaxIdx_spec _ hs).imp fun j hj => hj.1

theorem selectIdx_empty (pref : String) (sim : SimResults) (hs : sim.sharpe = [])
    (hv : sim.volatility = []) : selectIdx pref sim = none := by
  unfold selectIdx
  split_ifs <;> simp [hs, hv, argmaxIdx, argminIdx]

theorem sharpe_ne_nil (er : List ℝ) (cov : List (List ℝ)) (N : ℕ) (rf : ℝ)
    (rand : ℕ → ℕ → ℝ) (hN : 1 ≤ N) :
    (run_monte_carlo er cov N rf rand).sharpe ≠ [] := by
  intro h
  have hl : (run_monte_carlo er cov N rf rand).sharpe.length = N := by
    simp [run_monte_carlo]
  rw [h] at hl
  simp at hl
  omega

theorem volatility_ne_nil (er : List ℝ) (cov : List (List ℝ)) (N : ℕ) (rf : ℝ)
    (rand : ℕ → ℕ → ℝ) (hN : 1 ≤ N) :
    (run_monte_carlo er cov N rf rand).volatility ≠ [] := by
  intro h
  have hl : (run_monte_carlo er cov N rf rand).volatility.length = N := by
    simp [run_monte_carlo]
  rw [h] at hl
  simp at hl
  omega

theorem run_audit_returns (user_df : List (String × ℝ)) (hist : List (String × List ℝ))
    (pref : String) (rf : ℝ) (N : ℕ) (rand : ℕ → ℕ → ℝ) (hN : 1 ≤ N) :
    ∃ out, run_audit user_df hist pref rf N rand = some out ∧
      ((out.1.isSome = true ∧ out.2 = none) ∨ (out.1 = none ∧ out.2.isSome = true)) := by
  by_cases hv : (validTickers (user_df.map Prod.fst) (hist.map Prod.fst)).length < 2
  · refine ⟨(none, some insufficientMsg), ?_, Or.inr ⟨rfl, rfl⟩⟩
    simp only [run_audit]
    rw [if_pos hv]
  · simp only [run_audit]
    rw [if_neg hv]
    obtain ⟨j, hj⟩ := selectIdx_exists pref _
      (sharpe_ne_nil _ _ N _ rand hN) (volatility_ne_nil _ _ N _ rand hN)
    rw [hj, Option.map_some']
    exact ⟨_, rfl, Or.inl ⟨rfl, rfl⟩⟩

/-- Claim C8 counterexample: with two valid tickers and `num_simulations = 0`
the selection step raises (modelled `none`), so `run_audit` returns neither a
result nor an error message on this input. -/
theorem claim_C8_cex :
    run_audit [("A", 1), ("B", 1)] [("A", [1, 2]), ("B", [2, 3])] "High" 0 0
      (fun _ _ => 1 / 2) = none := by
  simp only [run_audit]
  rw [if_neg (by norm_num [validTickers])]
  rw [selectIdx_empty _ _ rfl rfl]
  rfl

/-- Claim C8 (amended): on every input that avoids the empty-selection crash
(simulation count at least 1, or fewer than 2 valid tickers), `run_audit`
returns exactly one of a populated result or an error message — never both
and never neither. -/
theorem claim_C8_amended (user_df : List (String × ℝ)) (hist : List (String × List ℝ))
    (pref : String) (rf : ℝ) (N : ℕ) (rand : ℕ → ℕ → ℝ)
    (h : 1 ≤ N ∨ (validTickers (user_df.map Prod.fst) (hist.map Prod.fst)).length < 2) :
    ∃ out, run_audit user_df hist pref rf N rand = some out ∧
      ((out.1.isSome = true ∧ out.2 = none) ∨ (out.1 = none ∧ out.2.isSome = true)) := by
  rcases h with hN | hv
  · exact run_audit_returns user_df hist pref rf N rand hN
  · refine ⟨(none, some insufficientMsg), ?_, Or.inr ⟨rfl, rfl⟩⟩
    simp only [run_audit]
    rw [if_pos hv]

/-- Witness for the amended C8: a two-ticker portfolio with one simulation. -/
theorem claim_C8_amended_witness :
    ∃ out, run_audit [("A", 1), ("B", 1)] [("A", [1, 2]), ("B", [2, 3])] "High" 0 1
      (fun _ _ => 1 / 2) = some out ∧
      ((out.1.isSome = true ∧ out.2 = none) ∨ (out.1 = none ∧ out.2.isSome = true)) :=
  claim_C8_amended [("A", 1), ("B", 1)] [("A", [1, 2]), ("B", [2, 3])] "High" 0 1
    (fun _ _ => 1 / 2) (Or.inl (by norm_num))

/-- Claim C10: with `num_simulations = 0` the selection step is applied to an
empty array and raises (modelled `none`) — both in `find_max_sharpe` and in
`run_audit` with at least two valid tickers — while any `num_simulations ≥ 1`
makes both defined; hence `num_simulations ≥ 1` is a required precondition. -/
theorem claim_C10 (er : List ℝ) (cov : List (List ℝ)) (rf : ℝ) (rand : ℕ → ℕ → ℝ)
    (user_df : List (String × ℝ)) (hist : List (String × List ℝ)) (pref : String)
    (h2 : ¬ (validTickers (user_df.map Prod.fst) (hist.map Prod.fst)).length < 2) :
    find_max_sharpe (run_monte_carlo er cov 0 rf rand) = none ∧
    run_audit user_df hist pref rf 0 rand = none ∧
    ∀ N, 1 ≤ N →
      (find_max_sharpe (run_monte_carlo er cov N rf rand)).isSome = true ∧
      (run_audit user_df hist pref rf N rand).isSome = true := by
  refine ⟨rfl, ?_, ?_⟩
  · simp only [run_audit]
    rw [if_neg h2]
    rw [selectIdx_empty _ _ rfl rfl]
    rfl
  · intro N hN
    constructor
    · obtain ⟨j, hj, _⟩ := argmaxIdx_spec (run_monte_carlo er cov N rf rand).sharpe
        (sharpe_ne_nil er cov N rf rand hN)
      simp [find_max_sharpe, hj]
    · obtain ⟨out, hout, _⟩ := run_audit_returns user_df hist pref rf N rand hN
      simp [hout]

/-- Witness for C10 at a concrete two-ticker input, with `N = 3` for the
defined case. -/
theorem claim_C10_witness :
    find_max_sharpe (run_monte_carlo [1, 2] [[1, 0], [0, 1]] 0 0 (fun _ _ => 1)) = none ∧
    run_audit [("A", 1), ("B", 1)] [("A", [1, 2]), ("B", [2, 3])] "Low" 0 0
      (fun _ _ => 1) = none ∧
    (find_max_sharpe (run_monte_carlo [1, 2] [[1, 0], [0, 1]] 3 0 (fun _ _ => 1))).isSome = true ∧
    (run_audit [("A", 1), ("B", 1)] [("A", [1, 2]), ("B", [2, 3])] "Low" 0 3
      (fun _ _ => 1)).isSome = true := by
  have h := claim_C10 [1, 2] [[1, 0], [0, 1]] 0 (fun _ _ => 1)
    [("A", 1), ("B", 1)] [("A", [1, 2]), ("B", [2, 3])] "Low" (by norm_num [validTickers])
  exact ⟨h.1, h.2.1, (h.2.2 3 (by norm_num)).1, (h.2.2 3 (by norm_num)).2⟩

end MCAudit
